import Mathlib

/-!
Verification development for the aws-pubsub-benchmark repository
(src/benchmark.py).  The definitions below are a shallow embedding of the
rate-driver (Throttler, Worker, run_benchmark), of the CLI rate/duration
validation and parsing (validate_rate, parse_rate, parse_duration), and of
the trace-aggregation pipeline (get_segments, get_dataframe,
compute_service_stats).  Python machine floats are modelled as exact
rationals; Python dicts are modelled either as association lists (when
insertion order matters) or extensionally as lookup functions (for the
segment-deduplication map); fallible Python code (KeyError,
ZeroDivisionError, exceptions escaping a loop) is modelled with Except.
-/

/- ----------------------------------------------------------------- -/
/- Rate and duration validation and parsing (benchmark.py lines 22-23,
   49-58, 65-74).  The regexes are _RATE_REGEX = ^([0-9]+)\/([sm])$ and
   _DURATION_REGEX = ^([0-9]+)([sm])$; both are anchored, but in Python
   (without re.MULTILINE) the dollar anchor matches at the end of the
   string OR just before one newline that ends the string, so re.match
   also accepts inputs with a single trailing newline after the unit. -/

/-- Decimal value of a digit string; this is the value Python's
float(m.group(1)) assigns to the first capture group. -/
def digitsVal (ds : List Char) : ℕ :=
  ds.foldl (fun a c => 10 * a + (c.toNat - 48)) 0

/-- Engine for _RATE_REGEX on a whole string: one or more digits, then a
slash, then a unit character s or m, then the dollar anchor, which in
Python matches the end of the string or a position followed only by one
final newline.  Returns the two capture groups (the numeric value of
group 1 and the unit). -/
def rateMatch (s : String) : Option (ℕ × Char) :=
  let cs := s.toList
  let ds := cs.takeWhile Char.isDigit
  let rest := cs.dropWhile Char.isDigit
  if ds = [] then none
  else
    match rest with
    | ['/', u] => if u = 's' ∨ u = 'm' then some (digitsVal ds, u) else none
    | ['/', u, c] =>
        if (u = 's' ∨ u = 'm') ∧ c = '\n' then some (digitsVal ds, u) else none
    | _ => none

/-- Engine for _DURATION_REGEX on a whole string: one or more digits,
then a unit character s or m, then the dollar anchor (end of string, or
one final newline). -/
def durMatch (s : String) : Option (ℕ × Char) :=
  let cs := s.toList
  let ds := cs.takeWhile Char.isDigit
  let rest := cs.dropWhile Char.isDigit
  if ds = [] then none
  else
    match rest with
    | [u] => if u = 's' ∨ u = 'm' then some (digitsVal ds, u) else none
    | [u, c] =>
        if (u = 's' ∨ u = 'm') ∧ c = '\n' then some (digitsVal ds, u) else none
    | _ => none

/-- validate_rate (benchmark.py 49-52): raise click.BadParameter when the
rate string does not match _RATE_REGEX, otherwise return the value. -/
def validate_rate (value : String) : Except String String :=
  match rateMatch value with
  | none => Except.error "rate need to be in format like 30/s"
  | some _ => Except.ok value

/-- validate_duration (benchmark.py 55-58). -/
def validate_duration (value : String) : Except String String :=
  match durMatch value with
  | none => Except.error "duration need to be in format like 30s"
  | some _ => Except.ok value

/-- parse_rate (benchmark.py 65-68): num / 60.0 if the unit is m, else
num.  None models the AttributeError Python would raise on a non-match. -/
def parse_rate (rate : String) : Option ℚ :=
  (rateMatch rate).map fun g => if g.2 = 'm' then (g.1 : ℚ) / 60 else (g.1 : ℚ)

/-- parse_duration (benchmark.py 71-74): num * 60.0 if the unit is m,
else num. -/
def parse_duration (dur : String) : Option ℚ :=
  (durMatch dur).map fun g => if g.2 = 'm' then (g.1 : ℚ) * 60 else (g.1 : ℚ)

/- ----------------------------------------------------------------- -/
/- The rate queue (multiprocessing.Manager().Queue(maxsize=_QUEUE_SIZE),
   benchmark.py 177) together with the one Throttler producer
   (benchmark.py 125-133) and the Worker consumers (benchmark.py 153-162).
   The queue state is its number of resident tokens; an interleaving of
   the processes is a list of events, each one loop iteration of one
   process.  Tokens are opaque (the producer puts the constant 0), so the
   count is the whole queue state. -/

/-- One scheduled loop iteration: a Throttler iteration (check full, then
put or drop, then sleep) or one Worker's get-with-timeout attempt. -/
inductive SysEv where
  | tick
  | poll (wid : ℕ)

/-- Effect of one iteration on the token count, with capacity cap.
Throttler (benchmark.py 128-129): if not rate_queue.full, put one token,
otherwise drop it; the put is guarded, so it never blocks.  Worker
(benchmark.py 157): rate_queue.get(timeout=0.01) removes a token when one
is present; otherwise queue.Empty is raised and caught, leaving the count
unchanged. -/
def queueStep (cap q : ℕ) : SysEv → ℕ
  | SysEv.tick => if q < cap then q + 1 else q
  | SysEv.poll _ => if 0 < q then q - 1 else q

/-- Token count after running an interleaving from the initially empty
queue. -/
def runQueue (cap : ℕ) (evs : List SysEv) : ℕ :=
  evs.foldl (queueStep cap) 0

/- ----------------------------------------------------------------- -/
/- Worker.run (benchmark.py 153-162).  A schedule lists what each loop
   iteration observes, until the iteration at which the exit flag is seen
   set (the end of the list).  empt: the get times out and queue.Empty is
   caught by the except clause, so the loop continues.  okInv: a token is
   popped and lambda_client.invoke returns, so self.invocations is
   incremented.  failInv: a token is popped and invoke raises; the except
   clause catches only queue.Empty, so the exception propagates out of the
   while loop and Worker.run terminates with it. -/

inductive WEv where
  | empt
  | okInv
  | failInv
deriving DecidableEq

/-- The worker loop over a schedule, carrying the invocations counter.
Except.error models Worker.run terminating on an uncaught exception from
the invoke call; Except.ok c models a clean exit with counter c after the
shutdown flag is observed. -/
def workerRun : List WEv → ℕ → Except String ℕ
  | [], c => Except.ok c
  | WEv.empt :: evs, c => workerRun evs c
  | WEv.okInv :: evs, c => workerRun evs (c + 1)
  | WEv.failInv :: _, _ => Except.error "invoke raised"

/-- Worker.__init__ (benchmark.py 151) sets self.invocations = 0 in the
parent process. -/
def workerInit : ℕ := 0

/-- The tail of run_benchmark (benchmark.py 169-201), one schedule per
worker.  Each Worker is a multiprocessing.Process: start() forks a child
that executes Worker.run on the child's own copy of the object, so the
increments of self.invocations happen in the child (their result is
workerRun sched workerInit) and are never written back to the parent's
Worker object; join() does not copy state back.  After joining, the
parent evaluates sum([w.invocations for w in workers]) over its own
unchanged objects and logs that total; the function body has no return
statement, so Python returns None.  The result pair is (returned value,
logged total_invocations). -/
def run_benchmark (scheds : List (List WEv)) : Option ℕ × ℕ :=
  let workers := scheds.map fun _ => workerInit
  (none, workers.sum)

/-- Python float division as used for Throttler(rate_queue, 1.0 / rate)
at benchmark.py 179: dividing by 0.0 raises ZeroDivisionError. -/
def pyFloatDiv (a b : ℚ) : Except String ℚ :=
  if b = 0 then Except.error "ZeroDivisionError: float division by zero"
  else Except.ok (a / b)

/-- The throttler interval run_benchmark computes from the raw rate
string: rate = parse_rate(rate) followed by 1.0 / rate
(benchmark.py 176-179). -/
def throttlerInterval (rateStr : String) : Except String ℚ :=
  match parse_rate rateStr with
  | some r => pyFloatDiv 1 r
  | none => Except.error "AttributeError"

/- ----------------------------------------------------------------- -/
/- The batch fetch and keyed merge of get_segments (benchmark.py 245-248):
     segments = {}
     for ids in chunks(trace_ids, _MAX_BATCH_SIZE):
         traces = xray_client.batch_get_traces(TraceIds=ids)['Traces']
         segments.update({t['Id'] + s['Id']: s for t in traces for s in t['Segments']})
   The fetched batches are the input; each batch is the Traces list the
   bulk-fetch API returned for one chunk.  The accumulating dict is
   modelled extensionally as a lookup function from composite keys; both
   the dict comprehension and dict.update give the LAST binding written
   for a key. -/

/-- One raw segment as returned by batch_get_traces: its Id and its
serialized Document. -/
structure RawSeg where
  sid : String
  doc : String
deriving DecidableEq

/-- One trace as returned by batch_get_traces: its Id and its raw
segments. -/
structure Trace where
  tid : String
  segs : List RawSeg
deriving DecidableEq

/-- The key-value pairs produced by the dict comprehension for one batch,
in iteration order: key t.Id ++ s.Id, value the raw segment. -/
def batchEntries (traces : List Trace) : List (String × RawSeg) :=
  traces.flatMap fun t => t.segs.map fun s => (t.tid ++ s.sid, s)

/-- The last value bound to key k in an entry list: the binding a Python
dict built or updated from these entries holds for k (a later entry for
the same key shadows an earlier one). -/
def assocLast : List (String × α) → String → Option α
  | [], _ => none
  | e :: t, k =>
    match assocLast t k with
    | some v => some v
    | none => if e.1 = k then some e.2 else none

/-- dict.update on the extensional dict model: keys written by the
entries take their last written value, other keys keep their old one. -/
def dUpdate (m : String → Option α) (es : List (String × α)) :
    String → Option α :=
  fun k =>
    match assocLast es k with
    | some v => some v
    | none => m k

/-- segments = \x7b\x7d: the initially empty dict. -/
def emptySegMap : String → Option RawSeg := fun _ => none

/-- The for loop: one dict.update per fetched batch, starting from m. -/
def mergeSegs (batches : List (List Trace)) (m : String → Option RawSeg) :
    String → Option RawSeg :=
  batches.foldl (fun acc ts => dUpdate acc (batchEntries ts)) m

/-- The merged segment dict get_segments has built after its fetch loop,
keyed by trace_id ++ segment_id. -/
def getSegmentsMap (batches : List (List Trace)) : String → Option RawSeg :=
  mergeSegs batches emptySegMap

/- ----------------------------------------------------------------- -/
/- Parsed segment documents (json.loads(v['Document'])) and the
   per-segment processing of get_segments (benchmark.py 236-243,
   249-252):
     segments = [json.loads(v['Document']) for v in segments.values()]
     segments = [v for v in segments if '_benchmark' in v['name']]
     segments = [compute_duration(s) for s in segments]
     segments = [unpack_annotations(s) for s in segments]
   A parsed JSON object is an insertion-ordered dict; it is modelled as an
   association list with unique keys, values being numbers, strings or
   nested objects. -/

/-- A JSON value as far as this pipeline inspects one: a number (Python
float, modelled exactly as a rational), a string, or a nested object. -/
inductive Val where
  | num (q : ℚ)
  | str (s : String)
  | obj (m : List (String × Val))

/-- A parsed JSON object / Python dict: ordered key-value pairs. -/
abbrev Row : Type := List (String × Val)

/-- d[k] / d.get(k): the value stored under key k. -/
def pyGet (r : Row) (k : String) : Option Val :=
  match r.find? (fun e => e.1 = k) with
  | some e => some e.2
  | none => none

/-- d[k] = v on a dict: replace the value in place if the key exists
(keeping its position), else append the new binding. -/
def dictSet (r : Row) (k : String) (v : Val) : Row :=
  if r.any (fun e => e.1 = k) then
    r.map (fun e => if e.1 = k then (k, v) else e)
  else r ++ [(k, v)]

/-- d.update(m): one dictSet per entry of m, in m's iteration order. -/
def dictUpdateRow (r : Row) (m : List (String × Val)) : Row :=
  m.foldl (fun acc e => dictSet acc e.1 e.2) r

/-- d.pop(k): remove the binding for k. -/
def dictPop (r : Row) (k : String) : Row :=
  r.filter fun e => decide (e.1 ≠ k)

/-- Whether the character list n occurs at the head of h. -/
def leadMatch : List Char → List Char → Bool
  | [], _ => true
  | _ :: _, [] => false
  | a :: as, b :: bs => a = b && leadMatch as bs

/-- Whether the character list n occurs as a contiguous block of h. -/
def hasBlock (n : List Char) : List Char → Bool
  | [] => n.isEmpty
  | c :: cs => leadMatch n (c :: cs) || hasBlock n cs

/-- Python substring containment: needle in hay. -/
def strContains (hay needle : String) : Bool :=
  hasBlock needle.toList hay.toList

/-- The filter of benchmark.py 250: keep a parsed segment iff the string
under its name key contains the marker _benchmark. -/
def keepSeg (r : Row) : Bool :=
  match pyGet r "name" with
  | some (Val.str nm) => strContains nm "_benchmark"
  | _ => false

/-- compute_duration (benchmark.py 236-238):
segment['duration'] = segment['end_time'] - segment['start_time'].
Except.error models the KeyError/TypeError Python raises when either
operand is missing or not a number. -/
def computeDuration (s : Row) : Except String Row :=
  match pyGet s "end_time", pyGet s "start_time" with
  | some (Val.num e), some (Val.num st) =>
      Except.ok (dictSet s "duration" (Val.num (e - st)))
  | _, _ => Except.error "KeyError"

/-- unpack_annotations (benchmark.py 240-243):
segment.update(segment['annotations']); segment.pop('annotations').
Except.error models the KeyError when the key is missing or its value is
not an object. -/
def unpackAnnots (s : Row) : Except String Row :=
  match pyGet s "annotations" with
  | some (Val.obj m) =>
      Except.ok (dictPop (dictUpdateRow s m) "annotations")
  | _ => Except.error "KeyError"

/-- The per-segment transform applied to every kept segment:
compute_duration then unpack_annotations (benchmark.py 251-252). -/
def processSegment (s : Row) : Except String Row :=
  (computeDuration s).bind unpackAnnots

/-- Abbreviation for the row processSegment produces on success: the
duration field is set first, then the annotation entries m are merged
over the top-level fields, then the annotations key is removed. -/
def processedRow (s : Row) (d : ℚ) (m : List (String × Val)) : Row :=
  dictPop (dictUpdateRow (dictSet s "duration" (Val.num d)) m) "annotations"

/- ----------------------------------------------------------------- -/
/- get_dataframe and compute_service_stats (benchmark.py 256-274).
   pd.DataFrame(segments) builds a frame whose columns are the union of
   the row keys; selecting a column that does not exist (in particular on
   the empty frame built from an empty list) raises KeyError.
   df[df['duration'] > 0] keeps the rows whose duration is a number
   greater than 0 (a missing value is NaN and NaN > 0 is False).
   compute_service_stats groups df['duration'] by df['service'] (pandas
   groupby sorts the group keys), computes count/mean/median and the
   0.75/0.90/0.95 quantiles with the default linear interpolation, then
   scales every column except count by 1000. -/

/-- The column set of pd.DataFrame(rows): the union of the row keys. -/
def colsOf (df : List Row) : List String :=
  (df.flatMap (fun r => r.map Prod.fst)).eraseDups

/-- The row predicate of df[df['duration'] > 0]. -/
def durPos (r : Row) : Bool :=
  match pyGet r "duration" with
  | some (Val.num q) => decide (0 < q)
  | _ => false

/-- get_dataframe (benchmark.py 256-262): build the frame and keep the
rows with positive duration; KeyError when there is no duration column
(as happens for the empty segment list). -/
def get_dataframe (segs : List Row) : Except String (List Row) :=
  if "duration" ∈ colsOf segs then Except.ok (segs.filter durPos)
  else Except.error "KeyError: duration"

/-- Ascending insertion into a sorted list of rationals. -/
def insertAsc (x : ℚ) : List ℚ → List ℚ
  | [] => [x]
  | y :: ys => if x ≤ y then x :: y :: ys else y :: insertAsc x ys

/-- Ascending sort, as pandas sorts the sample before a quantile. -/
def sortAsc (l : List ℚ) : List ℚ := l.foldr insertAsc []

/-- The q-quantile of an ascending sample with linear interpolation, the
pandas default: position h = q * (n - 1), and the value is interpolated
between the floor and the next entry by the fractional part of h. -/
def quantileLin (sorted : List ℚ) (q : ℚ) : ℚ :=
  let pos := q * ((sorted.length : ℚ) - 1)
  let i := (⌊pos⌋).toNat
  let frac := pos - ⌊pos⌋
  let a := sorted.getD i 0
  let b := sorted.getD (i + 1) a
  a + frac * (b - a)

/-- One output row of compute_service_stats: the dict built by its inner
compute function, after scaling. -/
structure StatsRow where
  count : ℕ
  mean : ℚ
  p50 : ℚ
  p75 : ℚ
  p90 : ℚ
  p95 : ℚ
deriving DecidableEq

/-- The group key of a row: the string under its service key, if any
(pandas groupby drops rows whose key is missing). -/
def serviceOf (r : Row) : Option String :=
  match pyGet r "service" with
  | some (Val.str s) => some s
  | _ => none

/-- Code-point comparison of character lists: the order Python string
comparison and hence the pandas group-key sort uses. -/
def charListLt : List Char → List Char → Bool
  | [], [] => false
  | [], _ :: _ => true
  | _ :: _, [] => false
  | a :: as, b :: bs =>
      if a = b then charListLt as bs else decide (a.toNat < b.toNat)

/-- Python string less-than. -/
def strLtB (s t : String) : Bool := charListLt s.toList t.toList

/-- Stable ascending insertion of a string key. -/
def insertStr (x : String) : List String → List String
  | [] => [x]
  | y :: ys => if strLtB y x then y :: insertStr x ys else x :: y :: ys

/-- Ascending sort of the group keys, as pandas groupby sorts them. -/
def sortStr (l : List String) : List String := l.foldr insertStr []

/-- The distinct service labels of the frame, in sorted order: the group
keys of df['duration'].groupby(df['service']). -/
def serviceKeys (df : List Row) : List String :=
  sortStr (df.filterMap serviceOf).eraseDups

/-- The duration samples of one service group, in row order. -/
def groupDurations (df : List Row) (k : String) : List ℚ :=
  df.filterMap fun r =>
    match serviceOf r, pyGet r "duration" with
    | some s, some (Val.num q) => if s = k then some q else none
    | _, _ => none

/-- The inner compute function of compute_service_stats (benchmark.py
267-269) on one group: count, mean, median = 0.5-quantile, and the
0.75/0.90/0.95 quantiles, all with linear interpolation. -/
def statsFor (g : List ℚ) : StatsRow :=
  let sorted := sortAsc g
  { count := g.length
    mean := g.foldl (· + ·) 0 / (g.length : ℚ)
    p50 := quantileLin sorted (1 / 2)
    p75 := quantileLin sorted (75 / 100)
    p90 := quantileLin sorted (90 / 100)
    p95 := quantileLin sorted (95 / 100) }

/-- benchmark.py 272-273: every statistic except count is scaled from
seconds to milliseconds; count stays an unscaled integer. -/
def scaleStats (s : StatsRow) : StatsRow :=
  { s with mean := s.mean * 1000, p50 := s.p50 * 1000, p75 := s.p75 * 1000,
           p90 := s.p90 * 1000, p95 := s.p95 * 1000 }

/-- compute_service_stats (benchmark.py 265-274): one output row per
distinct service label, in sorted key order; KeyError when the duration
or service column is missing. -/
def compute_service_stats (df : List Row) :
    Except String (List (String × StatsRow)) :=
  if "duration" ∈ colsOf df ∧ "service" ∈ colsOf df then
    Except.ok
      ((serviceKeys df).map fun k => (k, scaleStats (statsFor (groupDurations df k))))
  else Except.error "KeyError"

/-- The aggregation pipeline applied to a processed segment list:
get_dataframe followed by compute_service_stats, as in get_stats
(benchmark.py 286-288). -/
def aggregateStats (segs : List Row) : Except String (List (String × StatsRow)) :=
  (get_dataframe segs).bind compute_service_stats

/-- A processed segment carrying only the fields the aggregation reads. -/
def mkSeg (svc : String) (d : ℚ) : Row :=
  [("service", Val.str svc), ("duration", Val.num d)]

/-- The rational one half, written as a raw normalized fraction so that
the kernel can evaluate comparisons against it. -/
def halfQ : ℚ := ⟨1, 2, by norm_num, by norm_num⟩

/-- The synthetic input of claim C6: ten sqs segments with durations 1..10
seconds and three sns segments with durations 0, -1 and 0.5 seconds. -/
def synthSegs : List Row :=
  [mkSeg "sqs" 1, mkSeg "sqs" 2, mkSeg "sqs" 3, mkSeg "sqs" 4, mkSeg "sqs" 5,
   mkSeg "sqs" 6, mkSeg "sqs" 7, mkSeg "sqs" 8, mkSeg "sqs" 9, mkSeg "sqs" 10,
   mkSeg "sns" 0, mkSeg "sns" (-1), mkSeg "sns" halfQ]

/-- The frame get_dataframe builds from synthSegs: the non-positive sns
durations are dropped. -/
def dfSynth : List Row :=
  [mkSeg "sqs" 1, mkSeg "sqs" 2, mkSeg "sqs" 3, mkSeg "sqs" 4, mkSeg "sqs" 5,
   mkSeg "sqs" 6, mkSeg "sqs" 7, mkSeg "sqs" 8, mkSeg "sqs" 9, mkSeg "sqs" 10,
   mkSeg "sns" halfQ]

/-- A concrete fetched segment document, used to instantiate the
segment-processing theorem: an end time before the start time, and one
annotation entry. -/
def wSeg : Row :=
  [("name", Val.str "sqs_benchmark"), ("start_time", Val.num 3),
   ("end_time", Val.num 1), ("annotations", Val.obj [("service", Val.str "sqs")])]

/- ----------------------------------------------------------------- -/
/- Theorems. -/

theorem foldl_queueStep_le (cap : ℕ) (evs : List SysEv) (q : ℕ) (h : q ≤ cap) :
    evs.foldl (queueStep cap) q ≤ cap := by
  induction evs generalizing q with
  | nil => exact h
  | cons e t ih =>
    apply ih
    cases e with
    | tick => simp only [queueStep]; split <;> omega
    | poll w => simp only [queueStep]; split <;> omega

/-- C1.  For every channel capacity cap with 1 ≤ cap and every
interleaving of the one Throttler producer and the Worker consumers, the
number of tokens resident in the rate queue never exceeds cap; in each
Throttler iteration a token is put exactly when the queue is not full
(count below cap) and is dropped otherwise, so the put never blocks. -/
theorem throttler_queue_bound (cap : ℕ) (hcap : 1 ≤ cap) :
    (∀ evs : List SysEv, runQueue cap evs ≤ cap) ∧
    (∀ q, q < cap → queueStep cap q SysEv.tick = q + 1) ∧
    (∀ q, cap ≤ q → queueStep cap q SysEv.tick = q) := by
  refine ⟨fun evs => foldl_queueStep_le cap evs 0 (by omega),
    fun q h => ?_, fun q h => ?_⟩
  · simp only [queueStep, if_pos h]
  · simp only [queueStep, if_neg (by omega : ¬ q < cap)]

theorem throttler_queue_bound_witness :
    runQueue 1 [SysEv.tick, SysEv.tick, SysEv.poll 0, SysEv.tick] ≤ 1 :=
  (throttler_queue_bound 1 (by decide)).1 _

/-- C2, counterexample.  A worker whose first popped token leads to a
failing invoke call terminates immediately with the propagated exception:
the remaining iteration of its schedule (a successful invocation) is
never executed, and the loop does not continue to a clean exit with the
failure merely counted or logged. -/
theorem worker_invoke_failure_cex :
    workerRun [WEv.failInv, WEv.okInv] 0 = Except.error "invoke raised" ∧
    workerRun [WEv.failInv, WEv.okInv] 0 ≠ Except.ok 1 :=
  ⟨rfl, by simp [workerRun]⟩

/-- C2, amended.  An exception raised by the invoke call inside the
worker loop propagates: the except clause catches only queue.Empty, so
whatever the schedule held before the failure, the first failing
invocation terminates that worker's Worker.run with the exception and no
later iteration runs.  Workers are separate processes each running their
own loop, so another worker's schedule is unaffected. -/
theorem worker_invoke_failure_terminates (pre post : List WEv) (c : ℕ)
    (h : WEv.failInv ∉ pre) :
    workerRun (pre ++ WEv.failInv :: post) c = Except.error "invoke raised" := by
  induction pre generalizing c with
  | nil => rfl
  | cons e t ih =>
    cases e with
    | empt =>
        rw [List.cons_append]
        exact ih c (fun hm => h (List.mem_cons_of_mem _ hm))
    | okInv =>
        rw [List.cons_append]
        exact ih (c + 1) (fun hm => h (List.mem_cons_of_mem _ hm))
    | failInv => exact absurd (List.mem_cons_self _ _) h

theorem worker_invoke_failure_terminates_witness :
    workerRun ([WEv.empt, WEv.okInv] ++ WEv.failInv :: [WEv.okInv]) 0 =
      Except.error "invoke raised" :=
  worker_invoke_failure_terminates [WEv.empt, WEv.okInv] [WEv.okInv] 0 (by decide)

/-- C3.  run_benchmark does not return the total submitted-invocation
count.  At a run with one worker whose child process performs two
successful invocations (workerRun evaluates to ok 2), the parent-side
counters it sums after join are still the initial zeros, so the logged
total is 0, and the function returns None rather than any sum. -/
theorem run_benchmark_total_lost :
    run_benchmark [[WEv.okInv, WEv.okInv]] = (none, 0) ∧
    workerRun [WEv.okInv, WEv.okInv] workerInit = Except.ok 2 :=
  ⟨rfl, rfl⟩

/-- C4, counterexample.  On the empty segment list, get_dataframe raises
(pd.DataFrame([]) has no columns, so selecting the duration column is a
KeyError); it does not produce an empty report. -/
theorem empty_segments_cex :
    get_dataframe ([] : List Row) = Except.error "KeyError: duration" := rfl

/-- C4, amended.  When the fetched-and-filtered segment list is empty,
the aggregation pipeline (get_dataframe followed by
compute_service_stats) raises a KeyError for the missing duration column
instead of returning an empty zero-row report. -/
theorem empty_segments_pipeline_raises :
    aggregateStats ([] : List Row) = Except.error "KeyError: duration" := rfl

/-- C10.  The rate string 0/s matches _RATE_REGEX, so validate_rate
accepts it; parse_rate maps it to 0; and the throttler interval
1.0 / rate computed by run_benchmark then raises ZeroDivisionError: the
precondition R larger than 0 is not enforced by the input validation. -/
theorem zero_rate_accepted_then_divzero :
    validate_rate "0/s" = Except.ok "0/s" ∧
    parse_rate "0/s" = some 0 ∧
    throttlerInterval "0/s" =
      Except.error "ZeroDivisionError: float division by zero" := by
  refine ⟨rfl, ?_, ?_⟩
  · simp [parse_rate, rateMatch, digitsVal]
  · simp [throttlerInterval, parse_rate, rateMatch, digitsVal, pyFloatDiv]

theorem assocLast_append {α : Type} (es fs : List (String × α)) (k : String) :
    assocLast (es ++ fs) k =
      match assocLast fs k with
      | some v => some v
      | none => assocLast es k := by
  induction es with
  | nil =>
    cases h : assocLast fs k <;> simp [h, assocLast]
  | cons e t ih =>
    simp only [List.cons_append, assocLast, List.append_eq]
    rw [ih]
    cases assocLast fs k with
    | some v => rfl
    | none => cases assocLast t k <;> rfl

theorem mergeSegs_lookup (batches : List (List Trace))
    (m : String → Option RawSeg) (k : String) :
    mergeSegs batches m k =
      match assocLast (batches.flatMap batchEntries) k with
      | some v => some v
      | none => m k := by
  induction batches generalizing m with
  | nil => rfl
  | cons b t ih =>
    simp only [mergeSegs, List.foldl_cons] at *
    rw [ih, List.flatMap_cons, assocLast_append]
    cases assocLast (t.flatMap batchEntries) k with
    | some v => rfl
    | none =>
        simp only [dUpdate]
        cases assocLast (batchEntries b) k <;> rfl

/-- C5, counterexample.  Two batches carry the same composite key
(trace t, segment s) with different segment bodies A and B; the merged
map holds the body from the later batch, so the entry stored from the
earlier batch is overwritten, not kept. -/
theorem merge_overwrite_cex :
    getSegmentsMap [[⟨"t", [⟨"s", "A"⟩]⟩], [⟨"t", [⟨"s", "B"⟩]⟩]] "ts" =
      some ⟨"s", "B"⟩ ∧
    (⟨"s", "B"⟩ : RawSeg) ≠ ⟨"s", "A"⟩ :=
  ⟨rfl, by decide⟩

/-- C5, amended.  In get_segments's deduplication step, dict.update gives
last-write-wins semantics: for every composite key, the merged map holds
the LAST binding for that key across the concatenated batch entry
streams, so a later batch overwrites the value an earlier batch recorded
for the same key (and retried identical batches leave the map
unchanged). -/
theorem merge_latest_wins (batches : List (List Trace)) (k : String) :
    getSegmentsMap batches k = assocLast (batches.flatMap batchEntries) k := by
  rw [getSegmentsMap, mergeSegs_lookup]
  cases assocLast (batches.flatMap batchEntries) k <;> rfl

/-- C9.  The batch-merge step of get_segments is idempotent: for a fixed
batch-fetch result, running the keyed merge loop a second time over the
same batches, starting from the map the first run produced, yields
exactly the same segment map as the single run. -/
theorem merge_idempotent (batches : List (List Trace)) :
    mergeSegs batches (getSegmentsMap batches) = getSegmentsMap batches := by
  funext k
  rw [mergeSegs_lookup, getSegmentsMap, mergeSegs_lookup]
  cases assocLast (batches.flatMap batchEntries) k <;> rfl

theorem takeWhile_append_all {p : Char → Bool} (ds l : List Char)
    (h : ∀ c ∈ ds, p c = true) (hl : l.takeWhile p = []) :
    (ds ++ l).takeWhile p = ds := by
  induction ds with
  | nil => simpa using hl
  | cons c t ih =>
    rw [List.cons_append, List.takeWhile_cons, if_pos (h c (List.mem_cons_self c t)),
      ih (fun x hx => h x (List.mem_cons_of_mem c hx))]

theorem dropWhile_append_all {p : Char → Bool} (ds l : List Char)
    (h : ∀ c ∈ ds, p c = true) (hl : l.dropWhile p = l) :
    (ds ++ l).dropWhile p = l := by
  induction ds with
  | nil => simpa using hl
  | cons c t ih =>
    rw [List.cons_append, List.dropWhile_cons, if_pos (h c (List.mem_cons_self c t))]
    exact ih (fun x hx => h x (List.mem_cons_of_mem c hx))

theorem rateMatch_of_digits (ds : List Char) (u : Char) (hne : ds ≠ [])
    (hdig : ∀ c ∈ ds, c.isDigit = true) (hu : u = 's' ∨ u = 'm') :
    rateMatch (String.mk (ds ++ ['/', u])) = some (digitsVal ds, u) := by
  have htw : (ds ++ ['/', u]).takeWhile Char.isDigit = ds :=
    takeWhile_append_all ds _ hdig (by rw [List.takeWhile_cons]; simp)
  have hdw : (ds ++ ['/', u]).dropWhile Char.isDigit = ['/', u] :=
    dropWhile_append_all ds _ hdig (by rw [List.dropWhile_cons]; simp)
  simp only [rateMatch]
  rw [show (String.mk (ds ++ ['/', u])).toList = ds ++ ['/', u] from rfl, htw, hdw,
    if_neg hne]
  simp only [if_pos hu]

theorem durMatch_of_digits (ds : List Char) (u : Char) (hne : ds ≠ [])
    (hdig : ∀ c ∈ ds, c.isDigit = true) (hu : u = 's' ∨ u = 'm') :
    durMatch (String.mk (ds ++ [u])) = some (digitsVal ds, u) := by
  have hnd : Char.isDigit u = false := by rcases hu with h | h <;> rw [h] <;> rfl
  have htw : (ds ++ [u]).takeWhile Char.isDigit = ds :=
    takeWhile_append_all ds _ hdig (by rw [List.takeWhile_cons, hnd]; simp)
  have hdw : (ds ++ [u]).dropWhile Char.isDigit = [u] :=
    dropWhile_append_all ds _ hdig (by rw [List.dropWhile_cons, hnd]; simp)
  simp only [durMatch]
  rw [show (String.mk (ds ++ [u])).toList = ds ++ [u] from rfl, htw, hdw, if_neg hne]
  simp only [if_pos hu]

theorem rateMatch_nl_of_digits (ds : List Char) (u : Char) (hne : ds ≠ [])
    (hdig : ∀ c ∈ ds, c.isDigit = true) (hu : u = 's' ∨ u = 'm') :
    rateMatch (String.mk (ds ++ ['/', u, '\n'])) = some (digitsVal ds, u) := by
  have htw : (ds ++ ['/', u, '\n']).takeWhile Char.isDigit = ds :=
    takeWhile_append_all ds _ hdig (by rw [List.takeWhile_cons]; simp)
  have hdw : (ds ++ ['/', u, '\n']).dropWhile Char.isDigit = ['/', u, '\n'] :=
    dropWhile_append_all ds _ hdig (by rw [List.dropWhile_cons]; simp)
  simp only [rateMatch]
  rw [show (String.mk (ds ++ ['/', u, '\n'])).toList = ds ++ ['/', u, '\n'] from rfl,
    htw, hdw, if_neg hne]
  simp [hu]

theorem durMatch_nl_of_digits (ds : List Char) (u : Char) (hne : ds ≠ [])
    (hdig : ∀ c ∈ ds, c.isDigit = true) (hu : u = 's' ∨ u = 'm') :
    durMatch (String.mk (ds ++ [u, '\n'])) = some (digitsVal ds, u) := by
  have hnd : Char.isDigit u = false := by rcases hu with h | h <;> rw [h] <;> rfl
  have htw : (ds ++ [u, '\n']).takeWhile Char.isDigit = ds :=
    takeWhile_append_all ds _ hdig (by rw [List.takeWhile_cons, hnd]; simp)
  have hdw : (ds ++ [u, '\n']).dropWhile Char.isDigit = [u, '\n'] :=
    dropWhile_append_all ds _ hdig (by rw [List.dropWhile_cons, hnd]; simp)
  simp only [durMatch]
  rw [show (String.mk (ds ++ [u, '\n'])).toList = ds ++ [u, '\n'] from rfl,
    htw, hdw, if_neg hne]
  simp [hu]

theorem rateMatch_inv (s : String) (g : ℕ × Char) (h : rateMatch s = some g) :
    ∃ es u, (s.toList = es ++ ['/', u] ∨ s.toList = es ++ ['/', u, '\n']) ∧
      es ≠ [] ∧ (∀ c ∈ es, c.isDigit = true) ∧ (u = 's' ∨ u = 'm') := by
  simp only [rateMatch] at h
  split at h
  · exact absurd h (by simp)
  · next hne =>
      split at h
      · next u heq =>
          split at h
          · next hu =>
              refine ⟨s.toList.takeWhile Char.isDigit, u, Or.inl ?_, hne,
                fun c hc => List.mem_takeWhile_imp hc, hu⟩
              rw [← heq]
              exact (List.takeWhile_append_dropWhile _ _).symm
          · exact absurd h (by simp)
      · next u c heq =>
          split at h
          · next hcond =>
              refine ⟨s.toList.takeWhile Char.isDigit, u, Or.inr ?_, hne,
                fun c2 hc2 => List.mem_takeWhile_imp hc2, hcond.1⟩
              rw [← hcond.2, ← heq]
              exact (List.takeWhile_append_dropWhile _ _).symm
          · exact absurd h (by simp)
      · exact absurd h (by simp)

theorem durMatch_inv (s : String) (g : ℕ × Char) (h : durMatch s = some g) :
    ∃ es u, (s.toList = es ++ [u] ∨ s.toList = es ++ [u, '\n']) ∧
      es ≠ [] ∧ (∀ c ∈ es, c.isDigit = true) ∧ (u = 's' ∨ u = 'm') := by
  simp only [durMatch] at h
  split at h
  · exact absurd h (by simp)
  · next hne =>
      split at h
      · next u heq =>
          split at h
          · next hu =>
              refine ⟨s.toList.takeWhile Char.isDigit, u, Or.inl ?_, hne,
                fun c hc => List.mem_takeWhile_imp hc, hu⟩
              rw [← heq]
              exact (List.takeWhile_append_dropWhile _ _).symm
          · exact absurd h (by simp)
      · next u c heq =>
          split at h
          · next hcond =>
              refine ⟨s.toList.takeWhile Char.isDigit, u, Or.inr ?_, hne,
                fun c2 hc2 => List.mem_takeWhile_imp hc2, hcond.1⟩
              rw [← hcond.2, ← heq]
              exact (List.takeWhile_append_dropWhile _ _).symm
          · exact absurd h (by simp)
      · exact absurd h (by simp)

/-- C8.  Rate and duration strings are validated against the anchored
patterns digits-slash-unit and digits-unit (where, as for Python's
dollar anchor, one final newline may follow the unit); a failing string
(such as the rate 30, missing the unit and slash) makes validation
return click.BadParameter, and a string validation accepts necessarily
has one of those two shapes; for accepted inputs, parse_rate maps
digits/s to their decimal value and digits/m to that value divided by
60 (with or without the trailing newline), and parse_duration maps
digits-s to the value and digits-m to the value times 60. -/
theorem rate_duration_validation (ds : List Char) (hne : ds ≠ [])
    (hdig : ∀ c ∈ ds, c.isDigit = true) :
    validate_rate "30" = Except.error "rate need to be in format like 30/s" ∧
    parse_rate (String.mk (ds ++ ['/', 's'])) = some ((digitsVal ds : ℚ)) ∧
    parse_rate (String.mk (ds ++ ['/', 'm'])) = some ((digitsVal ds : ℚ) / 60) ∧
    parse_rate (String.mk (ds ++ ['/', 's', '\n'])) = some ((digitsVal ds : ℚ)) ∧
    parse_duration (String.mk (ds ++ ['s'])) = some ((digitsVal ds : ℚ)) ∧
    parse_duration (String.mk (ds ++ ['m'])) = some ((digitsVal ds : ℚ) * 60) ∧
    parse_duration (String.mk (ds ++ ['m', '\n'])) =
      some ((digitsVal ds : ℚ) * 60) ∧
    (∀ s : String, validate_rate s = Except.ok s →
      ∃ es u, (s.toList = es ++ ['/', u] ∨ s.toList = es ++ ['/', u, '\n']) ∧
        es ≠ [] ∧ (∀ c ∈ es, c.isDigit = true) ∧ (u = 's' ∨ u = 'm')) ∧
    (∀ s : String, validate_duration s = Except.ok s →
      ∃ es u, (s.toList = es ++ [u] ∨ s.toList = es ++ [u, '\n']) ∧
        es ≠ [] ∧ (∀ c ∈ es, c.isDigit = true) ∧ (u = 's' ∨ u = 'm')) := by
  refine ⟨rfl, ?_, ?_, ?_, ?_, ?_, ?_, ?_, ?_⟩
  · rw [parse_rate, rateMatch_of_digits ds 's' hne hdig (Or.inl rfl)]
    simp
  · rw [parse_rate, rateMatch_of_digits ds 'm' hne hdig (Or.inr rfl)]
    simp
  · rw [parse_rate, rateMatch_nl_of_digits ds 's' hne hdig (Or.inl rfl)]
    simp
  · rw [parse_duration, durMatch_of_digits ds 's' hne hdig (Or.inl rfl)]
    simp
  · rw [parse_duration, durMatch_of_digits ds 'm' hne hdig (Or.inr rfl)]
    simp
  · rw [parse_duration, durMatch_nl_of_digits ds 'm' hne hdig (Or.inr rfl)]
    simp
  · intro s h
    unfold validate_rate at h
    cases hm : rateMatch s with
    | none => rw [hm] at h; exact absurd h (by simp)
    | some g => exact rateMatch_inv s g hm
  · intro s h
    unfold validate_duration at h
    cases hm : durMatch s with
    | none => rw [hm] at h; exact absurd h (by simp)
    | some g => exact durMatch_inv s g hm

theorem rate_duration_validation_witness :
    validate_rate "30" = Except.error "rate need to be in format like 30/s" ∧
    parse_rate "30/s" = some ((digitsVal ['3', '0'] : ℚ)) ∧
    parse_rate "30/s\n" = some ((digitsVal ['3', '0'] : ℚ)) ∧
    parse_duration "45m" = some ((digitsVal ['4', '5'] : ℚ) * 60) :=
  ⟨(rate_duration_validation ['3', '0'] (by decide) (by decide)).1,
   (rate_duration_validation ['3', '0'] (by decide) (by decide)).2.1,
   (rate_duration_validation ['3', '0'] (by decide) (by decide)).2.2.2.1,
   (rate_duration_validation ['4', '5'] (by decide) (by decide)).2.2.2.2.2.1⟩

theorem pyGet_cons (e : String × Val) (t : Row) (k : String) :
    pyGet (e :: t) k = if e.1 = k then some e.2 else pyGet t k := by
  rw [pyGet, List.find?]
  by_cases hk : e.1 = k
  · simp [hk]
  · simp [hk, pyGet]

theorem pyGet_map_set_ne (r : Row) (k k2 : String) (v : Val) (h : k2 ≠ k) :
    pyGet (r.map fun e => if e.1 = k then (k, v) else e) k2 = pyGet r k2 := by
  induction r with
  | nil => rfl
  | cons e t ih =>
    by_cases he : e.1 = k
    · rw [List.map_cons, if_pos he, pyGet_cons, pyGet_cons, he,
        if_neg (fun hk => h hk.symm), if_neg (fun hk => h hk.symm)]
      exact ih
    · rw [List.map_cons, if_neg he, pyGet_cons, pyGet_cons]
      by_cases he2 : e.1 = k2
      · rw [if_pos he2, if_pos he2]
      · rw [if_neg he2, if_neg he2]
        exact ih

theorem pyGet_map_set_self (r : Row) (k : String) (v : Val)
    (h : r.any (fun e => e.1 = k) = true) :
    pyGet (r.map fun e => if e.1 = k then (k, v) else e) k = some v := by
  induction r with
  | nil => simp at h
  | cons e t ih =>
    by_cases he : e.1 = k
    · rw [List.map_cons, if_pos he, pyGet_cons, if_pos rfl]
    · rw [List.map_cons, if_neg he, pyGet_cons, if_neg he]
      apply ih
      rcases List.any_eq_true.mp h with ⟨x, hx, hpx⟩
      cases List.mem_cons.mp hx with
      | inl hxe => exact absurd (of_decide_eq_true (hxe ▸ hpx)) he
      | inr hxt => exact List.any_eq_true.mpr ⟨x, hxt, hpx⟩

theorem pyGet_none_of_not_any (r : Row) (k : String)
    (h : r.any (fun e => e.1 = k) = false) :
    pyGet r k = none := by
  induction r with
  | nil => rfl
  | cons e t ih =>
    rw [List.any_cons] at h
    rcases Bool.or_eq_false_iff.mp h with ⟨h1, h2⟩
    rw [pyGet_cons, if_neg (of_decide_eq_false h1)]
    exact ih h2

theorem pyGet_append_single (r : Row) (k k2 : String) (v : Val) :
    pyGet (r ++ [(k, v)]) k2 =
      match pyGet r k2 with
      | some w => some w
      | none => if k = k2 then some v else none := by
  induction r with
  | nil =>
    rw [List.nil_append, pyGet_cons]
    by_cases hk : k = k2 <;> simp [hk, pyGet]
  | cons e t ih =>
    rw [List.cons_append, pyGet_cons, pyGet_cons, ih]
    by_cases he : e.1 = k2
    · rw [if_pos he, if_pos he]
    · rw [if_neg he, if_neg he]

theorem pyGet_dictSet (r : Row) (k k2 : String) (v : Val) :
    pyGet (dictSet r k v) k2 = if k2 = k then some v else pyGet r k2 := by
  rw [dictSet]
  split
  · next hany =>
      by_cases hk : k2 = k
      · rw [if_pos hk, hk, pyGet_map_set_self r k v hany]
      · rw [if_neg hk, pyGet_map_set_ne r k k2 v hk]
  · next hany =>
      rw [pyGet_append_single]
      by_cases hk : k2 = k
      · rw [if_pos hk, ← hk,
          pyGet_none_of_not_any r k2 (hk ▸ Bool.of_not_eq_true hany), hk]
        simp
      · rw [if_neg hk]
        cases hg : pyGet r k2 with
        | some w => rfl
        | none => simp [if_neg (fun hke : k = k2 => hk hke.symm)]

theorem dictUpdateRow_append_single (r : Row) (t : List (String × Val))
    (e : String × Val) :
    dictUpdateRow r (t ++ [e]) = dictSet (dictUpdateRow r t) e.1 e.2 := by
  simp [dictUpdateRow, List.foldl_append]

theorem assocLast_single (e : String × Val) (k : String) :
    assocLast [e] k = if e.1 = k then some e.2 else none := rfl

theorem pyGet_dictUpdateRow_some (m : List (String × Val)) (r : Row)
    (k : String) (v : Val) (h : assocLast m k = some v) :
    pyGet (dictUpdateRow r m) k = some v := by
  induction m using List.reverseRecOn generalizing v with
  | nil => simp [assocLast] at h
  | append_singleton t e ih =>
    rw [dictUpdateRow_append_single, pyGet_dictSet]
    rw [assocLast_append, assocLast_single] at h
    by_cases he : e.1 = k
    · rw [if_pos he] at h
      rw [if_pos he.symm]
      simpa using h
    · rw [if_neg he] at h
      rw [if_neg (fun hk => he hk.symm)]
      exact ih v h

theorem pyGet_dictUpdateRow_none (m : List (String × Val)) (r : Row)
    (k : String) (h : assocLast m k = none) :
    pyGet (dictUpdateRow r m) k = pyGet r k := by
  induction m using List.reverseRecOn with
  | nil => rfl
  | append_singleton t e ih =>
    rw [dictUpdateRow_append_single, pyGet_dictSet]
    rw [assocLast_append, assocLast_single] at h
    by_cases he : e.1 = k
    · rw [if_pos he] at h
      cases hal : assocLast t k <;> rw [hal] at h <;> simp at h
    · rw [if_neg he] at h
      rw [if_neg (fun hk => he hk.symm)]
      cases hal : assocLast t k with
      | some w => rw [hal] at h; simp at h
      | none => exact ih hal

theorem pyGet_dictPop_self (r : Row) (k : String) :
    pyGet (dictPop r k) k = none := by
  induction r with
  | nil => rfl
  | cons e t ih =>
    rw [dictPop, List.filter_cons]
    by_cases he : e.1 = k
    · rw [if_neg (by simp [he])]
      exact ih
    · rw [if_pos (by simp [he]), pyGet_cons, if_neg he]
      exact ih

theorem pyGet_dictPop_other (r : Row) (k k2 : String) (h : k2 ≠ k) :
    pyGet (dictPop r k) k2 = pyGet r k2 := by
  induction r with
  | nil => rfl
  | cons e t ih =>
    rw [dictPop, List.filter_cons]
    by_cases he : e.1 = k
    · rw [if_neg (by simp [he]), pyGet_cons,
        if_neg (fun h2 : e.1 = k2 => h (h2 ▸ he))]
      exact ih
    · rw [if_pos (by simp [he]), pyGet_cons, pyGet_cons]
      by_cases he2 : e.1 = k2
      · rw [if_pos he2, if_pos he2]
      · rw [if_neg he2, if_neg he2]
        exact ih

/-- C7.  The segment-processing stage is a pure deterministic transform.
A fetched segment is kept exactly when the string under its name key
contains the marker _benchmark.  For a kept segment with numeric end and
start times and an annotation object m (whose entries do not themselves
use the duration or annotations key names in conflicting ways), the
processed row carries duration = end_time - start_time (negative when
end_time is earlier, never clamped), every annotation entry overwrites
any same-named pre-existing top-level field, and the annotations key
itself is removed. -/
theorem segment_processing (s : Row) (nm : String) (e st : ℚ)
    (m : List (String × Val))
    (hn : pyGet s "name" = some (Val.str nm))
    (he : pyGet s "end_time" = some (Val.num e))
    (hst : pyGet s "start_time" = some (Val.num st))
    (ha : pyGet s "annotations" = some (Val.obj m))
    (hmd : assocLast m "duration" = none) :
    keepSeg s = strContains nm "_benchmark" ∧
    processSegment s = Except.ok (processedRow s (e - st) m) ∧
    pyGet (processedRow s (e - st) m) "duration" = some (Val.num (e - st)) ∧
    (∀ k v, k ≠ "annotations" → assocLast m k = some v →
      pyGet (processedRow s (e - st) m) k = some v) ∧
    pyGet (processedRow s (e - st) m) "annotations" = none ∧
    (e < st → e - st < 0) := by
  have hset : pyGet (dictSet s "duration" (Val.num (e - st))) "annotations"
      = some (Val.obj m) := by
    rw [pyGet_dictSet, if_neg (by decide), ha]
  refine ⟨?_, ?_, ?_, ?_, ?_, ?_⟩
  · rw [keepSeg, hn]
  · rw [processSegment, computeDuration, he, hst]
    rw [show Except.bind (Except.ok (dictSet s "duration" (Val.num (e - st))))
        unpackAnnots = unpackAnnots (dictSet s "duration" (Val.num (e - st)))
      from rfl]
    rw [unpackAnnots, hset, processedRow]
  · rw [processedRow, pyGet_dictPop_other _ _ _ (by decide),
      pyGet_dictUpdateRow_none m _ _ hmd, pyGet_dictSet, if_pos rfl]
  · intro k v hk hkv
    rw [processedRow, pyGet_dictPop_other _ _ _ hk,
      pyGet_dictUpdateRow_some m _ k v hkv]
  · rw [processedRow, pyGet_dictPop_self]
  · intro hlt
    linarith

theorem segment_processing_witness :
    keepSeg wSeg = strContains "sqs_benchmark" "_benchmark" ∧
    processSegment wSeg =
      Except.ok (processedRow wSeg (1 - 3) [("service", Val.str "sqs")]) :=
  ⟨(segment_processing wSeg "sqs_benchmark" 1 3 [("service", Val.str "sqs")]
      rfl rfl rfl rfl rfl).1,
   (segment_processing wSeg "sqs_benchmark" 1 3 [("service", Val.str "sqs")]
      rfl rfl rfl rfl rfl).2.1⟩

theorem halfQ_eq : halfQ = 1 / 2 := by
  rw [halfQ, Rat.mk'_eq_divInt, Rat.divInt_eq_div]
  norm_num

theorem synthFrame : get_dataframe synthSegs = Except.ok dfSynth := rfl

theorem synthKeys : serviceKeys dfSynth = ["sns", "sqs"] := rfl

theorem synthSqsDurations :
    groupDurations dfSynth "sqs" = [1, 2, 3, 4, 5, 6, 7, 8, 9, 10] := rfl

theorem synthSnsDurations : groupDurations dfSynth "sns" = [halfQ] := rfl

theorem synthSqsStats :
    scaleStats (statsFor [1, 2, 3, 4, 5, 6, 7, 8, 9, 10]) =
      ⟨10, 5500, 5500, 7750, 9100, 9550⟩ := by
  norm_num [statsFor, scaleStats, sortAsc, insertAsc, quantileLin,
    List.getD, List.getElem?_cons_zero, List.getElem?_cons_succ, Option.getD]
  norm_num [show Int.toNat 4 = 4 from rfl, show Int.toNat 6 = 6 from rfl,
    show Int.toNat 8 = 8 from rfl, show Int.toNat 0 = 0 from rfl,
    List.getElem_cons_zero, List.getElem_cons_succ]

theorem synthSnsStats :
    scaleStats (statsFor [halfQ]) = ⟨1, 500, 500, 500, 500, 500⟩ := by
  rw [halfQ_eq]
  norm_num [statsFor, scaleStats, sortAsc, insertAsc, quantileLin,
    List.getD, List.getElem?_cons_zero, List.getElem?_cons_succ, Option.getD]

/-- C6.  On the synthetic input of ten sqs segments with durations 1..10
seconds and three sns segments with durations 0, -1 and 0.5 seconds, the
aggregation pipeline emits exactly two rows: sqs with count 10,
mean 5500 ms and median 5500 ms (the linearly interpolated median of
1..10 seconds, scaled), and sns with count 1 and mean 500 ms (the rows
with non-positive duration are dropped before grouping, count is an
unscaled integer, the other statistics are scaled to milliseconds, and
the quantiles interpolate linearly); and in general get_dataframe keeps
exactly the rows whose duration is positive. -/
theorem synthetic_stats :
    aggregateStats synthSegs =
      Except.ok [("sns", ⟨1, 500, 500, 500, 500, 500⟩),
                 ("sqs", ⟨10, 5500, 5500, 7750, 9100, 9550⟩)] ∧
    (∀ segs : List Row, "duration" ∈ colsOf segs →
      get_dataframe segs = Except.ok (segs.filter durPos)) := by
  constructor
  · have h : aggregateStats synthSegs = compute_service_stats dfSynth := by
      rw [aggregateStats, synthFrame]
      rfl
    rw [h, compute_service_stats, if_pos (by constructor <;> decide)]
    rw [synthKeys]
    simp only [List.map]
    rw [synthSqsDurations, synthSnsDurations, synthSqsStats, synthSnsStats]
  · intro segs h
    rw [get_dataframe, if_pos h]

theorem synthetic_stats_witness :
    get_dataframe synthSegs = Except.ok (synthSegs.filter durPos) :=
  synthetic_stats.2 synthSegs (by decide)
